import Mathlib

/-!
Shallow embedding of `src/atom/http.py` (gdata-python-client).

Python 2 byte strings are modelled as `List Char` (`Str`); each character
stands for one byte.  Environment lookup (`os.environ.get`) is a function
`Str → Option Str`, where `none` models an unset variable and Python
truthiness of the result (`if value:`) is `optTruthy`.  Socket reads are
modelled as the list of byte chunks successive `recv` calls deliver.
-/

namespace AtomHttp

/-- Byte strings of the Python 2 program: one `Char` per byte. -/
abbrev Str := List Char

/-- Turn a Lean string literal into the byte-string model. -/
def str (s : String) : Str := s.data

/-- Environment configuration, modelling `os.environ.get`. -/
abbrev Env := Str → Option Str

/-- Python truthiness of `os.environ.get`'s result: `None` and `''` are falsy. -/
def optTruthy : Option Str → Bool
  | none => false
  | some s => !s.isEmpty

/-- Python `str.strip` whitespace set (space, tab, LF, CR, VT, FF). -/
def isPySpace (c : Char) : Bool :=
  c == ' ' || c == '\t' || c == '\n' || c == '\r' || c == '\x0b' || c == '\x0c'

/-- Python `str.strip()`: drop leading and trailing whitespace. -/
def stripChars (s : Str) : Str :=
  ((s.dropWhile isPySpace).reverse.dropWhile isPySpace).reverse

/-- Does `s` start with the pattern `p`? (model of substring matching). -/
def startsWith : Str → Str → Bool
  | [], _ => true
  | _ :: _, [] => false
  | p :: ps, c :: cs => p == c && startsWith ps cs

/-- Does `s` contain `p` as a contiguous run?  Models Python
`s.find(p) != -1`. -/
def containsSeq (p : Str) : Str → Bool
  | [] => startsWith p []
  | c :: cs => startsWith p (c :: cs) || containsSeq p cs

/-- Worker for Python `str.split()`: `cur` accumulates the characters of
the current field in reverse. -/
def splitWSAux : Str → Str → List Str
  | [], cur => if cur.isEmpty then [] else [cur.reverse]
  | c :: cs, cur =>
    if isPySpace c then
      if cur.isEmpty then splitWSAux cs [] else cur.reverse :: splitWSAux cs []
    else splitWSAux cs (c :: cur)

/-- Python `str.split()` with no argument: split on runs of whitespace,
dropping empty fields. -/
def splitWS (s : Str) : List Str := splitWSAux s []

/-- Byte values of a modelled byte string. -/
def byteVals (s : Str) : List Nat := s.map Char.toNat

/-- The base64 alphabet, as used by `base64.encodestring`. -/
def base64Alphabet : Str :=
  str "ABCDEFGHIJKLMNOPQRSTUVWXYZabcdefghijklmnopqrstuvwxyz0123456789+/"

/-- The base64 digit for a 6-bit value. -/
def b64Char (n : Nat) : Char := base64Alphabet.getD n 'A'

/-- Base64-encode a byte sequence, 3 input bytes to 4 output characters,
with `=` padding on a short final group. -/
def b64EncodeChunks : List Nat → Str
  | [] => []
  | [a] => [b64Char (a / 4), b64Char (a % 4 * 16), '=', '=']
  | [a, b] => [b64Char (a / 4), b64Char (a % 4 * 16 + b / 16), b64Char (b % 16 * 4), '=']
  | a :: b :: c :: rest =>
    b64Char (a / 4) :: b64Char (a % 4 * 16 + b / 16) ::
      b64Char (b % 16 * 4 + c / 64) :: b64Char (c % 64) :: b64EncodeChunks rest

/-- Model of `binascii.b2a_base64`: encode one line and append a newline. -/
def b2aBase64 (bs : List Nat) : Str := b64EncodeChunks bs ++ ['\n']

/-- Model of `base64.encodestring`, fuelled: the input is processed in
57-byte groups, each producing one newline-terminated base64 line. -/
def encodestringAux : Nat → List Nat → Str
  | _, [] => []
  | 0, _ :: _ => []
  | fuel + 1, b :: bs => b2aBase64 ((b :: bs).take 57) ++ encodestringAux fuel ((b :: bs).drop 57)

/-- Model of `base64.encodestring` (Python 2): MIME base64 with a newline
after every 76-character line.  The fuel `bs.length` dominates the number
of 57-byte groups. -/
def encodestring (bs : List Nat) : Str := encodestringAux bs.length bs

/-- Python `'%s' % value` where `value` is a string or `None`: `None` prints
as the four characters `None`. -/
def pyFormat : Option Str → Str
  | some s => s
  | none => str "None"

/-- Source lines 242-244: the username comes from `proxy-username`, falling
back to `proxy_username` when the first is unset or empty. -/
def resolved_proxy_username (env : Env) : Option Str :=
  let u := env (str "proxy-username")
  if optTruthy u then u else env (str "proxy_username")

/-- Source lines 245-247: the password comes from `proxy-password`, falling
back to `proxy_password` when the first is unset or empty. -/
def resolved_proxy_password (env : Env) : Option Str :=
  let p := env (str "proxy-password")
  if optTruthy p then p else env (str "proxy_password")

/-- The `Basic` auth payload of `_get_proxy_auth` (source lines 249-251):
`base64.encodestring('%s:%s' % (username, password)).strip()`. -/
def basicAuthValue (env : Env) : Str :=
  stripChars (encodestring (byteVals
    (pyFormat (resolved_proxy_username env) ++ [':'] ++
      pyFormat (resolved_proxy_password env))))

/-- Embedding of `_get_proxy_auth` (source lines 241-253): returns
`'Basic <b64>\r\n'` when a username is set (to a non-empty value), and the
empty string otherwise. -/
def get_proxy_auth (env : Env) : Str :=
  if optTruthy (resolved_proxy_username env) then
    str "Basic " ++ basicAuthValue env ++ str "\r\n"
  else []

/-- The parsed URL object handed around by `atom.http`.  `atom.url` is not
part of the sources under verification, so the two string renderings are
opaque data: `fullString` models `to_string()` (the complete absolute URL)
and `requestUri` models `get_request_uri()` (the path-only request target),
as the spec describes them. -/
structure Url where
  protocol : Str
  host : Str
  port : Option Str
  fullString : Str
  requestUri : Str
deriving DecidableEq, Repr

/-- Python `port = x; if not port: port = d`: the port with its default. -/
def portOrElse (p : Option Str) (d : Str) : Str :=
  match p with
  | some q => if q.isEmpty then d else q
  | none => d

/-- Modelled from the spec: `atom.url.parse_url` is not in src; §4.2 says a
proxy value is parsed as `host[:port]`. -/
def parse_url (s : Str) : Url :=
  if s.contains ':' then
    ⟨[], s.takeWhile (fun c => !(c == ':')),
      some ((s.dropWhile (fun c => !(c == ':'))).drop 1), s, []⟩
  else ⟨[], s, none, s, []⟩

/-- HTTP header dictionaries, as association lists with unique keys. -/
abbrev Headers := List (Str × Str)

/-- Dictionary lookup: `headers[k]` / `k in headers`. -/
def hlookup (h : Headers) (k : Str) : Option Str :=
  (h.find? (fun kv => kv.1 == k)).map (fun kv => kv.2)

/-- Dictionary assignment `h[k] = v`: overwrite an existing key or append. -/
def hset (h : Headers) (k v : Str) : Headers :=
  match h with
  | [] => [(k, v)]
  | kv :: rest => if kv.1 == k then (k, v) :: rest else kv :: hset rest k v

/-- Dictionary update `a.update(b)`: every binding of `b` is written into
`a`, overwriting on conflict. -/
def hupdate (a b : Headers) : Headers :=
  b.foldl (fun acc kv => hset acc kv.1 kv.2) a

/-- The header-terminator `\r\n\r\n` test performed by the negotiation loop:
Python `response.find("\r\n\r\n") != -1`. -/
def hasTerm (s : Str) : Bool := containsSeq (str "\r\n\r\n") s

/-- Embedding of the tunnel read loop (source lines 196-200):
`response = ''; while response.find("\r\n\r\n") == -1: response += recv()`.
The chunk list holds the bytes successive `recv(8192)` calls deliver;
exhausting it without finding the terminator models the loop blocking (or
spinning on `''` reads) forever, hence `none`.  On success the accumulated
response and the still-unread chunks are returned. -/
def recvLoop (acc : Str) : List Str → Option (Str × List Str)
  | [] => if hasTerm acc then some (acc, []) else none
  | c :: rest => if hasTerm acc then some (acc, c :: rest) else recvLoop (acc ++ c) rest

/-- What became of a CONNECT negotiation. -/
inductive TunnelOutcome where
  /-- The reads never produced `\r\n\r\n`: the loop never terminates. -/
  | blocked
  /-- `response.split()[1]` on a response with fewer than two whitespace
  tokens: an uncaught `IndexError`. -/
  | indexError (response : Str)
  /-- `raise ProxyError('Error status=%s' % status)` (source line 204). -/
  | proxyError (status : Str)
  /-- `socket.ssl` wrap performed and the connection returned (source lines
  207-213).  `response` is the accumulated reply; `tlsInput` is what the
  TLS handshake can still read from the socket, i.e. exactly the unconsumed
  chunks — bytes already read into `response` past the terminator are not
  replayed. -/
  | established (response : Str) (tlsInput : Str)
deriving DecidableEq, Repr

/-- The observable behaviour of one HTTPS-proxy negotiation: the bytes sent
to the proxy in the single `sendall` (before any read), and the outcome. -/
structure TunnelTrace where
  sent : Str
  outcome : TunnelOutcome
deriving DecidableEq, Repr

/-- The CONNECT request text built by source lines 164-185:
`'%s%s%s\r\n' % (proxy_connect, proxy_auth, user_agent)`. -/
def proxy_pieces (env : Env) (url : Url) (headers : Headers) : Str :=
  let proxy_auth := get_proxy_auth env
  let proxy_auth := if proxy_auth.isEmpty then proxy_auth
    else str "Proxy-authorization: " ++ proxy_auth
  let port := portOrElse url.port (str "443")
  let proxy_connect := str "CONNECT " ++ url.host ++ [':'] ++ port ++ str " HTTP/1.0\r\n"
  let user_agent := match hlookup headers (str "User-Agent") with
    | some ua => str "User-Agent: " ++ ua ++ str "\r\n"
    | none => []
  proxy_connect ++ proxy_auth ++ user_agent ++ str "\r\n"

/-- Embedding of the HTTPS branch of `ProxiedHttpClient._prepare_connection`
(source lines 165-213), given the reply chunks the proxy will deliver:
send `proxy_pieces`, read until `\r\n\r\n`, take `response.split()[1]` as
the status, fail with `ProxyError` unless it is `200`, otherwise wrap the
socket with `socket.ssl`. -/
def negotiate_https_tunnel (env : Env) (url : Url) (headers : Headers)
    (chunks : List Str) : TunnelTrace :=
  let pieces := proxy_pieces env url headers
  match recvLoop [] chunks with
  | none => ⟨pieces, TunnelOutcome.blocked⟩
  | some (response, rest) =>
    match (splitWS response)[1]? with
    | none => ⟨pieces, TunnelOutcome.indexError response⟩
    | some p_status =>
      if p_status == str "200" then
        ⟨pieces, TunnelOutcome.established response rest.flatten⟩
      else ⟨pieces, TunnelOutcome.proxyError p_status⟩

/-- A direct connection object, as produced by
`HttpClient._prepare_connection`: destination host, (defaulted) port and
whether it is an `HTTPSConnection`. -/
structure DirectConn where
  host : Str
  port : Str
  secure : Bool
deriving DecidableEq, Repr

/-- Embedding of `HttpClient._prepare_connection` (source lines 129-143)
for an already-parsed URL: an `HTTPSConnection` to port 443 for `https`,
an `HTTPConnection` to port 80 otherwise.  Constructing an httplib
connection object performs no network I/O. -/
def HttpClient.prepare_connection (url : Url) : DirectConn :=
  if url.protocol == str "https" then
    ⟨url.host, portOrElse url.port (str "443"), true⟩
  else
    ⟨url.host, portOrElse url.port (str "80"), false⟩

/-- The connection `ProxiedHttpClient._prepare_connection` hands back. -/
inductive PrepResult where
  /-- Fallback to `HttpClient._prepare_connection` (no proxy applies). -/
  | direct (c : DirectConn)
  /-- Plain destination through `http_proxy`: an `HTTPConnection` to the
  proxy, with `Proxy-Authorization` added to the headers when credentials
  exist (source lines 218-228). -/
  | plainProxy (proxyHost : Str) (proxyPort : Str) (headersOut : Headers)
  /-- Encrypted destination through `https_proxy`: the CONNECT tunnel. -/
  | httpsTunnel (t : TunnelTrace)
deriving DecidableEq, Repr

/-- Embedding of `ProxiedHttpClient._prepare_connection`
(source lines 163-231). -/
def ProxiedHttpClient.prepare_connection (env : Env) (url : Url)
    (headers : Headers) (chunks : List Str) : PrepResult :=
  let proxy_auth := get_proxy_auth env
  if url.protocol == str "https" then
    if optTruthy (env (str "https_proxy")) then
      PrepResult.httpsTunnel (negotiate_https_tunnel env url headers chunks)
    else
      PrepResult.direct (HttpClient.prepare_connection url)
  else
    if optTruthy (env (str "http_proxy")) then
      let proxy_url := parse_url ((env (str "http_proxy")).getD [])
      let headers2 := if proxy_auth.isEmpty then headers
        else hset headers (str "Proxy-Authorization") (stripChars proxy_auth)
      PrepResult.plainProxy proxy_url.host (portOrElse proxy_url.port (str "80")) headers2
    else
      PrepResult.direct (HttpClient.prepare_connection url)

/-- The bytes a `_prepare_connection` call sent to a proxy before any use
of the returned connection: only the CONNECT tunnel sends any. -/
def proxyBytesSent : PrepResult → Str
  | PrepResult.httpsTunnel t => t.sent
  | _ => []

/-- Embedding of `HttpClient._get_access_url` (source lines 145-146). -/
def HttpClient.get_access_url (url : Url) : Str := url.requestUri

/-- Embedding of `ProxiedHttpClient._get_access_url`
(source lines 233-238): the absolute URL for a plain destination with a
truthy `http_proxy`, the path-only request URI otherwise. -/
def ProxiedHttpClient.get_access_url (env : Env) (url : Url) : Str :=
  if url.protocol == str "http" && optTruthy (env (str "http_proxy")) then
    url.fullString
  else url.requestUri

/-- One part of a multi-part request body, as `_send_data_part` accepts it:
a byte string, a file-like object (modelled by its successive
`read(100000)` results), or any other object together with its `str()`
rendering. -/
inductive DataPart where
  | blob (s : Str)
  | stream (reads : List Str)
  | other (strForm : Str) (truthy : Bool)
deriving DecidableEq, Repr

/-- A request body (`data` argument of `HttpClient.request`): a byte
string, a list of parts, a file-like object, or any other object with a
`str()` rendering and a truth value. -/
inductive PyData where
  | blob (s : Str)
  | parts (l : List DataPart)
  | stream (reads : List Str)
  | other (strForm : Str) (truthy : Bool)
deriving DecidableEq, Repr

/-- Python truthiness of a body object: strings and lists are truthy iff
non-empty; file objects are truthy; other objects carry their own
truth value. -/
def PyData.isTruthy : PyData → Bool
  | PyData.blob s => !s.isEmpty
  | PyData.parts l => !l.isEmpty
  | PyData.stream _ => true
  | PyData.other _ t => t

/-- A network-I/O action of a request.  httplib connections are lazy:
nothing happens on construction; the socket is connected and the buffered
request line and headers are flushed by `endheaders`, and data is pushed
with `send`. -/
inductive IOEvent where
  | connect (host : Str) (port : Str) (secure : Bool)
  | send (bytes : Str)
deriving DecidableEq, Repr

/-- Embedding of `_send_data_part` (source lines 256-272) for one part:
strings are sent whole; file-like objects are drained one `read` at a
time until a read returns `''`; anything else is sent as `str(data)`. -/
def send_data_part : DataPart → List IOEvent
  | DataPart.blob s => [IOEvent.send s]
  | DataPart.stream reads => (reads.takeWhile (fun r => !r.isEmpty)).map IOEvent.send
  | DataPart.other s _ => [IOEvent.send s]

/-- Body transmission of `HttpClient.request` (source lines 119-124): a
list is sent part by part, anything else through one `_send_data_part`. -/
def send_data : PyData → List IOEvent
  | PyData.parts l => (l.map send_data_part).flatten
  | PyData.blob s => [IOEvent.send s]
  | PyData.stream reads => (reads.takeWhile (fun r => !r.isEmpty)).map IOEvent.send
  | PyData.other s _ => [IOEvent.send s]

/-- Decimal rendering of `len(data)` for the computed `Content-Length`. -/
def natToStr (n : Nat) : Str := (toString n).data

/-- The default `Content-Type` (source line 50). -/
def DEFAULT_CONTENT_TYPE : Str := str "application/atom+xml"

/-- Header block as flushed by `endheaders`: each `putheader(k, v)`
buffered `k: v\r\n`, followed by the blank line. -/
def formatHeaders (h : Headers) : Str :=
  (h.map (fun kv => kv.1 ++ str ": " ++ kv.2 ++ str "\r\n")).flatten

/-- Result of `HttpClient.request`: either the
`ContentLengthRequired` exception (with the network-I/O events performed
before the raise) or normal completion with its I/O events and the final
header dictionary. -/
inductive ReqResult where
  | contentLengthRequired (events : List IOEvent)
  | ok (events : List IOEvent) (finalHeaders : Headers)
deriving DecidableEq, Repr

/-- Embedding of `HttpClient.request` (source lines 58-127) for an
already-parsed URL, with httplib's lazy-connection semantics: the
connection object and the buffered request line cause no I/O; `endheaders`
connects and flushes; then the body is sent.  A truthy body that is not a
string and has no `Content-Length` in the merged headers raises
`ContentLengthRequired` (source lines 101-107) while nothing has been
sent. -/
def HttpClient.request (selfHeaders : Headers) (operation : Str) (url : Url)
    (data : Option PyData) (headers : Headers) : ReqResult :=
  let all_headers := hupdate selfHeaders headers
  let conn := HttpClient.prepare_connection url
  let requestLine :=
    operation ++ [' '] ++ HttpClient.get_access_url url ++ str " HTTP/1.1\r\n"
  let dataTruthy := match data with
    | none => false
    | some d => d.isTruthy
  let lengthKnown := !(dataTruthy && (hlookup all_headers (str "Content-Length")).isNone)
  let isStringBody := match data with
    | some (PyData.blob _) => true
    | _ => false
  if !lengthKnown && !isStringBody then
    ReqResult.contentLengthRequired []
  else
    let all_headers := match data with
      | some (PyData.blob s) =>
        if lengthKnown then all_headers
        else hset all_headers (str "Content-Length") (natToStr s.length)
      | _ => all_headers
    let all_headers :=
      if (hlookup all_headers (str "Content-Type")).isNone then
        hset all_headers (str "Content-Type") DEFAULT_CONTENT_TYPE
      else all_headers
    let flush := [IOEvent.connect conn.host conn.port conn.secure,
      IOEvent.send (requestLine ++ formatHeaders all_headers ++ str "\r\n")]
    let bodyEvents := match data with
      | none => []
      | some d => if d.isTruthy then send_data d else []
    ReqResult.ok (flush ++ bodyEvents) all_headers

/-- Example environment: only `https_proxy` is configured. -/
def exProxyEnv : Env := fun k =>
  if k = str "https_proxy" then some (str "proxyhost:3128") else none

/-- Example environment: `https_proxy` plus a full set of credentials. -/
def exCredEnv : Env := fun k =>
  if k = str "https_proxy" then some (str "proxyhost:3128")
  else if k = str "proxy-username" then some (str "user")
  else if k = str "proxy-password" then some (str "pass")
  else none

/-- Example environment: only a password variable is set, no username. -/
def exPwOnlyEnv : Env := fun k =>
  if k = str "proxy_password" then some (str "secret") else none

/-- Example environment: a username but no password variable at all. -/
def exUserOnlyEnv : Env := fun k =>
  if k = str "proxy-username" then some (str "bob") else none

/-- Example environment: only the underscored `proxy_username` is set, no
hyphenated variable and no password variable at all. -/
def exUserUnderscoreEnv : Env := fun k =>
  if k = str "proxy_username" then some (str "bob") else none

/-- Example environment: only `http_proxy` is configured. -/
def exPlainProxyEnv : Env := fun k =>
  if k = str "http_proxy" then some (str "proxyhost:8080") else none

/-- Example encrypted destination. -/
def exUrl : Url :=
  ⟨str "https", str "www.example.com", none,
    str "https://www.example.com/feed", str "/feed"⟩

/-- Example plain destination. -/
def exPlainUrl : Url :=
  ⟨str "http", str "www.example.com", none,
    str "http://www.example.com/feed", str "/feed"⟩

/-- Example fragmented proxy reply: the `\r\n\r\n` terminator is completed
only by the third read. -/
def exFragChunks : List Str := [str "HTTP/1.0 200 OK", str "\r\n\r", str "\n tail"]

/-- Example proxy reply rejecting the tunnel. -/
def exRejectChunks : List Str :=
  [str "HTTP/1.0 407 Proxy Authentication Required\r\n\r\n"]

/-- Example proxy reply in one read with bytes past the terminator. -/
def exExtraChunks : List Str :=
  [str "HTTP/1.0 200 Connection established\r\n\r\nEXTRA"]

/-- A stream of reads that never delivers anything (peer closed: every
`recv` returns the empty string). -/
def emptyStream : Nat → Str := fun _ => []

/-- The tunnel read loop over an unbounded stream of `recv` results
(`stream j` is what the `j`-th read returns), with an explicit fuel bound:
`recvLoopF fuel acc stream i` runs the loop body at most `fuel` more times
starting from read index `i`.  The loop of source lines 196-200 terminates
exactly when some fuel suffices. -/
def recvLoopF : Nat → Str → (Nat → Str) → Nat → Option Str
  | 0, acc, _, _ => if hasTerm acc then some acc else none
  | fuel + 1, acc, stream, i =>
    if hasTerm acc then some acc else recvLoopF fuel (acc ++ stream i) stream (i + 1)

/-- The chunks delivered by reads `i, i+1, ..., i+n-1` of a stream. -/
def readsFrom (stream : Nat → Str) : Nat → Nat → List Str
  | _, 0 => []
  | i, n + 1 => stream i :: readsFrom stream (i + 1) n

/-- The concatenation of the first `n` reads of a stream. -/
def concatFirst (stream : Nat → Str) (n : Nat) : Str := (readsFrom stream 0 n).flatten

theorem startsWith_iff (p s : Str) : startsWith p s = true ↔ ∃ u, s = p ++ u := by
  induction p generalizing s with
  | nil => simp [startsWith]
  | cons a ps ih =>
    cases s with
    | nil =>
      simp only [startsWith, List.cons_append]
      constructor
      · intro h; cases h
      · rintro ⟨u, hu⟩; cases hu
    | cons c cs =>
      simp only [startsWith, Bool.and_eq_true, beq_iff_eq, ih, List.cons_append,
        List.cons.injEq]
      constructor
      · rintro ⟨rfl, u, rfl⟩; exact ⟨u, rfl, rfl⟩
      · rintro ⟨u, rfl, rfl⟩; exact ⟨rfl, u, rfl⟩

theorem containsSeq_iff (p s : Str) : containsSeq p s = true ↔ ∃ x y, s = x ++ p ++ y := by
  induction s with
  | nil =>
    simp only [containsSeq, startsWith_iff]
    constructor
    · rintro ⟨u, hu⟩
      rcases List.append_eq_nil.mp hu.symm with ⟨hp, hu'⟩
      exact ⟨[], [], by simp [hp]⟩
    · rintro ⟨x, y, hxy⟩
      rcases List.append_eq_nil.mp hxy.symm with ⟨hxp, hy⟩
      rcases List.append_eq_nil.mp hxp with ⟨hx, hp⟩
      exact ⟨[], by simp [hp]⟩
  | cons c cs ih =>
    simp only [containsSeq, Bool.or_eq_true, startsWith_iff, ih]
    constructor
    · rintro (⟨u, hu⟩ | ⟨x, y, hxy⟩)
      · exact ⟨[], u, by simp [hu]⟩
      · exact ⟨c :: x, y, by simp [hxy]⟩
    · rintro ⟨x, y, hxy⟩
      cases x with
      | nil => exact Or.inl ⟨y, by simpa using hxy⟩
      | cons d x' =>
        right
        refine ⟨x', y, ?_⟩
        have := hxy
        simp only [List.cons_append, List.cons.injEq] at this
        exact this.2

theorem containsSeq_append_of (p a b : Str) (h : containsSeq p a = true) :
    containsSeq p (a ++ b) = true := by
  rcases (containsSeq_iff p a).mp h with ⟨x, y, rfl⟩
  exact (containsSeq_iff p _).mpr ⟨x, y ++ b, by simp⟩

theorem recvLoop_total (acc : Str) (chunks : List Str)
    (h : hasTerm (acc ++ chunks.flatten) = true) :
    ∃ r rest, recvLoop acc chunks = some (r, rest) ∧ hasTerm r = true := by
  induction chunks generalizing acc with
  | nil =>
    rw [List.flatten_nil, List.append_nil] at h
    exact ⟨acc, [], by simp [recvLoop, h], h⟩
  | cons c cs ih =>
    by_cases hacc : hasTerm acc = true
    · exact ⟨acc, c :: cs, by simp [recvLoop, hacc], hacc⟩
    · have h' : hasTerm ((acc ++ c) ++ cs.flatten) = true := by
        rw [List.append_assoc]
        simpa [List.flatten_cons, ← List.append_assoc] using h
      obtain ⟨r, rest, hr, hterm⟩ := ih (acc ++ c) h'
      exact ⟨r, rest, by simp [recvLoop, hacc, hr], hterm⟩

theorem recvLoop_sound (acc : Str) (chunks : List Str) (r : Str) (rest : List Str)
    (h : recvLoop acc chunks = some (r, rest)) :
    hasTerm r = true ∧
      ∃ k, k ≤ chunks.length ∧ r = acc ++ (chunks.take k).flatten ∧ rest = chunks.drop k := by
  induction chunks generalizing acc with
  | nil =>
    by_cases hacc : hasTerm acc = true
    · simp only [recvLoop, hacc, if_true, Option.some.injEq, Prod.mk.injEq] at h
      exact ⟨h.1 ▸ hacc, 0, by simp [← h.1, ← h.2]⟩
    · simp [recvLoop, hacc] at h
  | cons c cs ih =>
    by_cases hacc : hasTerm acc = true
    · simp only [recvLoop, hacc, if_true, Option.some.injEq, Prod.mk.injEq] at h
      exact ⟨h.1 ▸ hacc, 0, by simp [← h.1, ← h.2]⟩
    · simp only [recvLoop, hacc, if_false, Bool.false_eq_true] at h
      obtain ⟨hterm, k, hk, hr, hrest⟩ := ih (acc ++ c) h
      refine ⟨hterm, k + 1, by simpa using hk, ?_, by simpa using hrest⟩
      simp [hr, List.flatten_cons, List.append_assoc]

theorem splitWS_spaces (w s : Str) (hw : ∀ c ∈ w, isPySpace c = true) :
    splitWS (w ++ s) = splitWS s := by
  induction w with
  | nil => rfl
  | cons c w' ih =>
    have hc : isPySpace c = true := hw c (by simp)
    show splitWSAux (c :: (w' ++ s)) [] = splitWS s
    rw [splitWSAux, if_pos hc]
    exact ih (fun d hd => hw d (List.mem_cons_of_mem _ hd))

theorem splitWSAux_token (tok : Str) : ∀ (rest cur : Str),
    (∀ c ∈ tok, isPySpace c = false) →
    (∀ c, rest.head? = some c → isPySpace c = true) →
    (cur ≠ [] ∨ tok ≠ []) →
    splitWSAux (tok ++ rest) cur = (cur.reverse ++ tok) :: splitWS rest := by
  induction tok with
  | nil =>
    intro rest cur _ h3 hne
    have hcur : cur ≠ [] := by
      rcases hne with h | h
      · exact h
      · exact absurd rfl h
    have hcurE : cur.isEmpty = false := by
      simpa [List.isEmpty_iff] using hcur
    cases rest with
    | nil =>
      show (if cur.isEmpty then [] else [cur.reverse]) = (cur.reverse ++ []) :: splitWS []
      rw [hcurE]
      simp [splitWS, splitWSAux]
    | cons r rs =>
      have hr : isPySpace r = true := h3 r rfl
      show splitWSAux (r :: rs) cur = (cur.reverse ++ []) :: splitWS (r :: rs)
      rw [splitWSAux, if_pos hr, hcurE]
      have : splitWS (r :: rs) = splitWSAux rs [] := by
        show splitWSAux (r :: rs) [] = splitWSAux rs []
        rw [splitWSAux, if_pos hr]
        rfl
      simp [this]
  | cons c ts ih =>
    intro rest cur h2 h3 _
    have hc : isPySpace c = false := h2 c (by simp)
    show splitWSAux (c :: (ts ++ rest)) cur = (cur.reverse ++ c :: ts) :: splitWS rest
    rw [splitWSAux, if_neg (by simp [hc])]
    rw [ih rest (c :: cur) (fun d hd => h2 d (List.mem_cons_of_mem _ hd)) h3
      (Or.inl (by simp))]
    simp

theorem splitWS_token (tok rest : Str) (h1 : tok ≠ [])
    (h2 : ∀ c ∈ tok, isPySpace c = false)
    (h3 : ∀ c, rest.head? = some c → isPySpace c = true) :
    splitWS (tok ++ rest) = tok :: splitWS rest := by
  have := splitWSAux_token tok rest [] h2 h3 (Or.inr h1)
  simpa [splitWS] using this

theorem appendsCompare (a b x y : Str) (h : a ++ x = b ++ y) :
    (∃ u, b = a ++ u) ∨ (∃ u, a = b ++ u) := by
  induction a generalizing b with
  | nil => exact Or.inl ⟨b, rfl⟩
  | cons c a' ih =>
    cases b with
    | nil => exact Or.inr ⟨c :: a', rfl⟩
    | cons d b' =>
      simp only [List.cons_append, List.cons.injEq] at h
      rcases ih b' h.2 with ⟨u, hu⟩ | ⟨u, hu⟩
      · exact Or.inl ⟨u, by simp [h.1, hu]⟩
      · exact Or.inr ⟨u, by simp [← h.1, hu]⟩

theorem recvLoopF_eq_recvLoop (fuel : Nat) (acc : Str) (stream : Nat → Str) (i : Nat) :
    recvLoopF fuel acc stream i = (recvLoop acc (readsFrom stream i fuel)).map Prod.fst := by
  induction fuel generalizing acc i with
  | zero =>
    by_cases h : hasTerm acc = true <;> simp [recvLoopF, readsFrom, recvLoop, h]
  | succ f ih =>
    by_cases h : hasTerm acc = true <;>
      simp [recvLoopF, readsFrom, recvLoop, h, ih]

theorem readsFrom_add (stream : Nat → Str) (i m n : Nat) :
    readsFrom stream i (m + n) = readsFrom stream i m ++ readsFrom stream (i + m) n := by
  induction m generalizing i with
  | zero => simp [readsFrom, Nat.zero_add]
  | succ m' ih =>
    have : m' + 1 + n = (m' + n) + 1 := by omega
    rw [this]
    show stream i :: readsFrom stream (i + 1) (m' + n) = _
    rw [ih (i + 1)]
    have : i + 1 + m' = i + (m' + 1) := by omega
    rw [this]
    rfl

theorem readsFrom_take (stream : Nat → Str) (i n k : Nat) :
    (readsFrom stream i n).take k = readsFrom stream i (min k n) := by
  induction n generalizing i k with
  | zero => simp [readsFrom]
  | succ n' ih =>
    cases k with
    | zero => simp [readsFrom]
    | succ k' =>
      show stream i :: (readsFrom stream (i + 1) n').take k' = _
      rw [ih (i + 1) k', Nat.succ_min_succ]
      rfl

theorem readsFrom_flatten_nil (stream : Nat → Str) (N : Nat)
    (hN : ∀ i, N ≤ i → stream i = []) :
    ∀ m i, N ≤ i → (readsFrom stream i m).flatten = [] := by
  intro m
  induction m with
  | zero => intro i _; rfl
  | succ m' ih =>
    intro i hi
    show (stream i ++ (readsFrom stream (i + 1) m').flatten) = []
    rw [hN i hi, ih (i + 1) (by omega)]
    rfl

/-- C2: for every sequence of non-empty byte chunks delivered by successive
reads from the proxy, if the concatenation of the chunks contains the
4-byte terminator `\r\n\r\n` (possibly only after the final chunk, and
spanning chunk boundaries), the tunnel-negotiation read loop accumulates
the chunks and detects the terminator, succeeding without assuming the
terminator arrives in a single read. -/
theorem claim_C2 (chunks : List Str) (_hne : ∀ c ∈ chunks, c ≠ [])
    (hterm : hasTerm chunks.flatten = true) :
    ∃ resp rest, recvLoop [] chunks = some (resp, rest) ∧ hasTerm resp = true :=
  recvLoop_total [] chunks (by simpa using hterm)

/-- Witness for C2: the spec's three-partial-reads reply, whose
concatenation contains `\r\n\r\n` only once the third read arrives. -/
theorem claim_C2_witness :
    ∃ resp rest, recvLoop [] exFragChunks = some (resp, rest) ∧ hasTerm resp = true :=
  claim_C2 exFragChunks (by decide) (by decide)

/-- C6: when neither username variable is set (to a truthy value) the
credential resolver yields the empty auth value — no error — regardless of
any password variables; and for username and password alike the hyphenated
variable takes priority over the underscored one. -/
theorem claim_C6 (env : Env) :
    ((optTruthy (env (str "proxy-username")) = false ∧
        optTruthy (env (str "proxy_username")) = false) →
      get_proxy_auth env = []) ∧
    (∀ u, env (str "proxy-username") = some u → u ≠ [] →
      resolved_proxy_username env = some u) ∧
    (∀ p, env (str "proxy-password") = some p → p ≠ [] →
      resolved_proxy_password env = some p) := by
  refine ⟨?_, ?_, ?_⟩
  · rintro ⟨h1, h2⟩
    simp [get_proxy_auth, resolved_proxy_username, h1, h2]
  · intro u hu hne
    simp [resolved_proxy_username, hu, optTruthy, List.isEmpty_iff, hne]
  · intro p hp hne
    simp [resolved_proxy_password, hp, optTruthy, List.isEmpty_iff, hne]

/-- Witness for C6: with only `proxy_password` set the resolver returns the
empty auth value. -/
theorem claim_C6_witness : get_proxy_auth exPwOnlyEnv = [] :=
  (claim_C6 exPwOnlyEnv).1 ⟨by decide, by decide⟩

/-- C9: with a username variable set — either the hyphenated
`proxy-username`, or `proxy_username` when the hyphenated one is unset or
empty — and neither password variable set, the Basic auth payload is
`encodestring`-base64 of `<username>:None`: Python's `'%s' % None` renders
the literal four characters `None` as the password. -/
theorem claim_C9 (env : Env) (u : Str)
    (hu : env (str "proxy-username") = some u ∧ u ≠ [] ∨
      optTruthy (env (str "proxy-username")) = false ∧
        env (str "proxy_username") = some u ∧ u ≠ [])
    (hp1 : env (str "proxy-password") = none)
    (hp2 : env (str "proxy_password") = none) :
    get_proxy_auth env =
      str "Basic " ++ stripChars (encodestring (byteVals (u ++ str ":None"))) ++
        str "\r\n" := by
  have hres : resolved_proxy_username env = some u ∧ u ≠ [] := by
    rcases hu with ⟨hu, hune⟩ | ⟨hfalsy, hu, hune⟩
    · exact ⟨by simp [resolved_proxy_username, hu, optTruthy, List.isEmpty_iff, hune], hune⟩
    · exact ⟨by simp [resolved_proxy_username, hfalsy, hu], hune⟩
  obtain ⟨hru, hune⟩ := hres
  have hrp : resolved_proxy_password env = none := by
    simp [resolved_proxy_password, hp1, hp2, optTruthy]
  simp [get_proxy_auth, hru, hrp, optTruthy, List.isEmpty_iff, hune,
    basicAuthValue, pyFormat, List.append_assoc]
  have hln : (':' :: str "None" : Str) = str ":None" := by decide
  rw [hln]

/-- Witness for C9: `base64("bob:None") = Ym9iOk5vbmU=`, both for an
environment with only the hyphenated username variable set and for one
with only the underscored username variable set. -/
theorem claim_C9_witness :
    get_proxy_auth exUserOnlyEnv = str "Basic Ym9iOk5vbmU=\r\n" ∧
    get_proxy_auth exUserUnderscoreEnv = str "Basic Ym9iOk5vbmU=\r\n" := by
  constructor
  · rw [claim_C9 exUserOnlyEnv (str "bob") (Or.inl ⟨by decide, by decide⟩)
      (by decide) (by decide)]
    decide
  · rw [claim_C9 exUserUnderscoreEnv (str "bob")
      (Or.inr ⟨by decide, by decide, by decide⟩) (by decide) (by decide)]
    decide

/-- C7: the request-line target of the proxied client is the full absolute
URL exactly for a plain-scheme destination with a configured (non-empty)
`http_proxy`; for an encrypted scheme or without a configured `http_proxy`
it is the path-only request URI. -/
theorem claim_C7 (env : Env) (url : Url) :
    (url.protocol = str "http" → optTruthy (env (str "http_proxy")) = true →
      ProxiedHttpClient.get_access_url env url = url.fullString) ∧
    ((url.protocol ≠ str "http" ∨ optTruthy (env (str "http_proxy")) = false) →
      ProxiedHttpClient.get_access_url env url = url.requestUri) := by
  constructor
  · intro h1 h2
    simp [ProxiedHttpClient.get_access_url, h1, h2]
  · intro h
    rcases h with h | h
    · simp [ProxiedHttpClient.get_access_url, Bool.and_eq_true, beq_iff_eq, h]
    · simp [ProxiedHttpClient.get_access_url, Bool.and_eq_true, h]

/-- Witness for C7: a plain destination with `http_proxy` configured gets
the absolute URL; the same destination without a proxy, and an encrypted
destination, get the path. -/
theorem claim_C7_witness :
    ProxiedHttpClient.get_access_url exPlainProxyEnv exPlainUrl = exPlainUrl.fullString ∧
    ProxiedHttpClient.get_access_url exProxyEnv exPlainUrl = exPlainUrl.requestUri ∧
    ProxiedHttpClient.get_access_url exPlainProxyEnv exUrl = exUrl.requestUri :=
  ⟨(claim_C7 exPlainProxyEnv exPlainUrl).1 (by decide) (by decide),
   (claim_C7 exProxyEnv exPlainUrl).2 (Or.inr (by decide)),
   (claim_C7 exPlainProxyEnv exUrl).2 (Or.inl (by decide))⟩

/-- C8: when the destination's matching proxy variable is unset or empty,
`ProxiedHttpClient._prepare_connection` falls back to the direct
`HttpClient._prepare_connection` path, and no bytes are sent to any proxy
— in particular no CONNECT negotiation happens for encrypted
destinations. -/
theorem claim_C8 (env : Env) (url : Url) (headers : Headers) (chunks : List Str)
    (h : (url.protocol = str "https" ∧ optTruthy (env (str "https_proxy")) = false) ∨
      (url.protocol ≠ str "https" ∧ optTruthy (env (str "http_proxy")) = false)) :
    ProxiedHttpClient.prepare_connection env url headers chunks =
      PrepResult.direct (HttpClient.prepare_connection url) ∧
    proxyBytesSent (ProxiedHttpClient.prepare_connection env url headers chunks) = [] := by
  have hmain : ProxiedHttpClient.prepare_connection env url headers chunks =
      PrepResult.direct (HttpClient.prepare_connection url) := by
    rcases h with ⟨h1, h2⟩ | ⟨h1, h2⟩
    · simp [ProxiedHttpClient.prepare_connection, h1, h2]
    · simp [ProxiedHttpClient.prepare_connection, beq_iff_eq, h1, h2]
  exact ⟨hmain, by rw [hmain]; rfl⟩

/-- Witness for C8: an encrypted destination in an environment where only
`http_proxy` is configured goes direct. -/
theorem claim_C8_witness :
    ProxiedHttpClient.prepare_connection exPlainProxyEnv exUrl [] [] =
      PrepResult.direct (HttpClient.prepare_connection exUrl) ∧
    proxyBytesSent (ProxiedHttpClient.prepare_connection exPlainProxyEnv exUrl [] []) = [] :=
  claim_C8 exPlainProxyEnv exUrl [] [] (Or.inl ⟨by decide, by decide⟩)

theorem negotiate_sent (env : Env) (url : Url) (headers : Headers) (chunks : List Str) :
    (negotiate_https_tunnel env url headers chunks).sent = proxy_pieces env url headers := by
  cases hr : recvLoop [] chunks with
  | none => simp [negotiate_https_tunnel, hr]
  | some pr =>
    obtain ⟨response, rest⟩ := pr
    cases hs : (splitWS response)[1]? with
    | none => simp [negotiate_https_tunnel, hr, hs]
    | some p_status =>
      by_cases h : p_status = str "200" <;>
        simp [negotiate_https_tunnel, hr, hs, beq_iff_eq, h]

/-- C5: on the encrypted-through-proxy path, the bytes handed to the single
`sendall` before any reply is read are exactly the CONNECT line (with the
destination port defaulting to 443 when absent), then a
`Proxy-authorization: Basic <base64(user:pass)>` line exactly when
credentials exist, then a `User-Agent` line exactly when the merged
headers carry one, terminated by a blank line. -/
theorem claim_C5 (env : Env) (url : Url) (headers : Headers) (chunks : List Str)
    (hproto : url.protocol = str "https")
    (hproxy : optTruthy (env (str "https_proxy")) = true) :
    ProxiedHttpClient.prepare_connection env url headers chunks =
      PrepResult.httpsTunnel (negotiate_https_tunnel env url headers chunks) ∧
    (negotiate_https_tunnel env url headers chunks).sent =
      str "CONNECT " ++ url.host ++ [':'] ++ portOrElse url.port (str "443") ++
        str " HTTP/1.0\r\n" ++
      (if optTruthy (resolved_proxy_username env) then
        str "Proxy-authorization: Basic " ++ basicAuthValue env ++ str "\r\n"
       else []) ++
      (match hlookup headers (str "User-Agent") with
       | some ua => str "User-Agent: " ++ ua ++ str "\r\n"
       | none => []) ++
      str "\r\n" := by
  constructor
  · simp [ProxiedHttpClient.prepare_connection, hproto, hproxy]
  · rw [negotiate_sent]
    by_cases hcred : optTruthy (resolved_proxy_username env) = true
    · have hauth : get_proxy_auth env = str "Basic " ++ basicAuthValue env ++ str "\r\n" := by
        simp [get_proxy_auth, hcred]
      have hif : (if (get_proxy_auth env).isEmpty then get_proxy_auth env
          else str "Proxy-authorization: " ++ get_proxy_auth env) =
          str "Proxy-authorization: Basic " ++ basicAuthValue env ++ str "\r\n" := by
        rw [hauth]; rfl
      simp only [proxy_pieces, hif, hcred, if_true]
    · have hcred' : optTruthy (resolved_proxy_username env) = false := by
        simpa using hcred
      have hauth : get_proxy_auth env = [] := by
        simp [get_proxy_auth, hcred']
      simp [proxy_pieces, hauth, hcred', List.append_assoc]

/-- Witness for C5: with credentials and a User-Agent header the CONNECT
request text carries both optional lines in order. -/
theorem claim_C5_witness :
    ProxiedHttpClient.prepare_connection exCredEnv exUrl
        [(str "User-Agent", str "agent/1.0")] [] =
      PrepResult.httpsTunnel (negotiate_https_tunnel exCredEnv exUrl
        [(str "User-Agent", str "agent/1.0")] []) ∧
    (negotiate_https_tunnel exCredEnv exUrl
        [(str "User-Agent", str "agent/1.0")] []).sent =
      str "CONNECT " ++ exUrl.host ++ [':'] ++ portOrElse exUrl.port (str "443") ++
        str " HTTP/1.0\r\n" ++
      (if optTruthy (resolved_proxy_username exCredEnv) then
        str "Proxy-authorization: Basic " ++ basicAuthValue exCredEnv ++ str "\r\n"
       else []) ++
      (match hlookup [(str "User-Agent", str "agent/1.0")] (str "User-Agent") with
       | some ua => str "User-Agent: " ++ ua ++ str "\r\n"
       | none => []) ++
      str "\r\n" :=
  claim_C5 exCredEnv exUrl [(str "User-Agent", str "agent/1.0")] [] (by decide) (by decide)

/-- C4 counterexample: an empty list of parts is a non-None, non-string
body, and the merged headers carry no `Content-Length`, yet the request
does not raise `ContentLengthRequired` — source line 101 guards the check
with Python truthiness (`if data and ...`), and `[]` is falsy, so the
request completes normally. -/
theorem claim_C4_cex :
    HttpClient.request [] (str "POST") exPlainUrl (some (PyData.parts [])) [] =
      ReqResult.ok
        [IOEvent.connect (str "www.example.com") (str "80") false,
         IOEvent.send (str "POST /feed HTTP/1.1\r\nContent-Type: application/atom+xml\r\n\r\n")]
        [(str "Content-Type", DEFAULT_CONTENT_TYPE)] := by
  decide

/-- C4 (amended): for every request with a truthy (in particular,
non-empty) body that is not a string and whose merged headers contain no
`Content-Length` key, `request` raises `ContentLengthRequired`, and this
happens before any network I/O occurs — the event trace at the raise is
empty: no connection opened, no bytes sent. -/
theorem claim_C4 (selfHeaders headers : Headers) (operation : Str) (url : Url)
    (d : PyData) (htruthy : d.isTruthy = true)
    (hnotstr : ∀ s, d ≠ PyData.blob s)
    (hnc : hlookup (hupdate selfHeaders headers) (str "Content-Length") = none) :
    HttpClient.request selfHeaders operation url (some d) headers =
      ReqResult.contentLengthRequired [] := by
  cases d with
  | blob s => exact absurd rfl (hnotstr s)
  | parts l => simp_all [HttpClient.request, PyData.isTruthy]
  | stream reads => simp_all [HttpClient.request, PyData.isTruthy]
  | other s t => simp_all [HttpClient.request, PyData.isTruthy]

/-- Witness for C4: a file-like body with pending reads and no
`Content-Length` fails with an empty I/O trace. -/
theorem claim_C4_witness :
    HttpClient.request [] (str "POST") exPlainUrl
        (some (PyData.stream [str "chunk"])) [] =
      ReqResult.contentLengthRequired [] :=
  claim_C4 [] [] (str "POST") exPlainUrl (PyData.stream [str "chunk"])
    (by decide) (fun s h => by cases h) (by decide)

/-- C3: the claim (and the spec's intent) is that bytes received after
`\r\n\r\n` in the reads that delivered the header block are preserved for
the TLS handshake.  The code violates this: here the single read delivers
the header block plus 5 extra bytes `EXTRA`; the negotiation succeeds, the
accumulated response ends in `EXTRA`, yet the TLS layer is wrapped around
the raw socket, whose unread input is empty — the excess bytes sit only in
the discarded `response` string and are silently lost (the spec itself
flags this reference behaviour as a latent bug). -/
theorem claim_C3 :
    negotiate_https_tunnel exProxyEnv exUrl [] exExtraChunks =
      TunnelTrace.mk (str "CONNECT www.example.com:443 HTTP/1.0\r\n\r\n")
        (TunnelOutcome.established
          (str "HTTP/1.0 200 Connection established\r\n\r\n" ++ str "EXTRA") []) := by
  decide

/-- C1: for every proxy reply whose status line's second
whitespace-delimited token `t` is not `200` (the reply being
`v w t r` with `v` the first token, `w` intra-line whitespace, and the
remainder `r` opening with whitespace), the proxied-HTTPS connection
setup with `https_proxy` configured fails with `ProxyError` carrying `t`,
and the socket is never wrapped in the SSL channel (no `established`
outcome). -/
theorem claim_C1 (env : Env) (url : Url) (headers : Headers) (chunks : List Str)
    (v w t r : Str)
    (hproto : url.protocol = str "https")
    (hproxy : optTruthy (env (str "https_proxy")) = true)
    (hreply : chunks.flatten = v ++ w ++ t ++ r)
    (hv : v ≠ []) (hvs : ∀ c ∈ v, isPySpace c = false)
    (hw : w ≠ []) (hws : ∀ c ∈ w, c = ' ' ∨ c = '\t')
    (ht : t ≠ []) (hts : ∀ c ∈ t, isPySpace c = false)
    (hrhead : ∀ c, r.head? = some c → isPySpace c = true)
    (hterm : hasTerm chunks.flatten = true)
    (hne : t ≠ str "200") :
    ProxiedHttpClient.prepare_connection env url headers chunks =
      PrepResult.httpsTunnel
        (TunnelTrace.mk (proxy_pieces env url headers) (TunnelOutcome.proxyError t)) ∧
    ∀ resp2 tls, (negotiate_https_tunnel env url headers chunks).outcome ≠
      TunnelOutcome.established resp2 tls := by
  obtain ⟨resp, rest, hloop, hrt⟩ := recvLoop_total [] chunks (by simpa using hterm)
  obtain ⟨-, k, hk, hrk, hrestk⟩ := recvLoop_sound [] chunks resp rest hloop
  have hX : resp ++ (chunks.drop k).flatten = chunks.flatten := by
    rw [hrk, List.nil_append, ← List.flatten_append, List.take_append_drop]
  have hnoCR : ∀ c ∈ (v ++ w) ++ t, c ≠ '\r' := by
    intro c hc
    rcases List.mem_append.mp hc with hc | hc
    · rcases List.mem_append.mp hc with hc | hc
      · intro hceq
        have h := hvs c hc
        rw [hceq] at h
        exact absurd h (by decide)
      · rcases hws c hc with rfl | rfl <;> decide
    · intro hceq
      have h := hts c hc
      rw [hceq] at h
      exact absurd h (by decide)
  have hCRresp : '\r' ∈ resp := by
    rcases (containsSeq_iff _ _).mp hrt with ⟨x, y, hxy⟩
    rw [hxy]
    have hm : '\r' ∈ str "\r\n\r\n" := by decide
    exact List.mem_append_left _ (List.mem_append_right _ hm)
  rcases appendsCompare resp ((v ++ w) ++ t) ((chunks.drop k).flatten) r
      (hX.trans hreply) with ⟨u, hu⟩ | ⟨u, hu⟩
  · exact absurd rfl (hnoCR '\r' (hu ▸ List.mem_append_left u hCRresp))
  · have hune : u ≠ [] := by
      rintro rfl
      rw [List.append_nil] at hu
      exact absurd rfl (hnoCR '\r' (hu ▸ hCRresp))
    have hur : u ++ (chunks.drop k).flatten = r := by
      have h2 : ((v ++ w) ++ t) ++ (u ++ (chunks.drop k).flatten) =
          ((v ++ w) ++ t) ++ r := by
        rw [← List.append_assoc, ← hu]
        exact hX.trans hreply
      exact List.append_cancel_left h2
    have hhead : ∀ c, u.head? = some c → isPySpace c = true := by
      intro c hc
      apply hrhead c
      rw [← hur]
      cases u with
      | nil => cases hc
      | cons a as => simpa using hc
    have hwhead : ∀ c, (w ++ (t ++ u)).head? = some c → isPySpace c = true := by
      intro c hc
      cases w with
      | nil => exact absurd rfl hw
      | cons a as =>
        have : a = c := by simpa using hc
        subst this
        rcases hws a (by simp) with rfl | rfl <;> decide
    have hwsp : ∀ c ∈ w, isPySpace c = true := by
      intro c hc
      rcases hws c hc with rfl | rfl <;> decide
    have hsplit : splitWS resp = v :: t :: splitWS u := by
      rw [hu]
      have hassoc : ((v ++ w) ++ t) ++ u = v ++ (w ++ (t ++ u)) := by
        simp [List.append_assoc]
      rw [hassoc, splitWS_token v (w ++ (t ++ u)) hv hvs hwhead,
        splitWS_spaces w (t ++ u) hwsp, splitWS_token t u ht hts hhead]
    have hidx : (splitWS resp)[1]? = some t := by rw [hsplit]; simp
    have hneg : negotiate_https_tunnel env url headers chunks =
        TunnelTrace.mk (proxy_pieces env url headers) (TunnelOutcome.proxyError t) := by
      simp [negotiate_https_tunnel, hloop, hidx, beq_iff_eq, hne]
    constructor
    · simp [ProxiedHttpClient.prepare_connection, hproto, hproxy, hneg]
    · rw [hneg]
      intro resp2 tls
      simp

/-- Witness for C1: the spec's `407 Proxy Authentication Required` reply
produces `ProxyError` carrying `407` and no SSL wrap. -/
theorem claim_C1_witness :
    ProxiedHttpClient.prepare_connection exProxyEnv exUrl [] exRejectChunks =
      PrepResult.httpsTunnel
        (TunnelTrace.mk (proxy_pieces exProxyEnv exUrl [])
          (TunnelOutcome.proxyError (str "407"))) ∧
    ∀ resp2 tls, (negotiate_https_tunnel exProxyEnv exUrl [] exRejectChunks).outcome ≠
      TunnelOutcome.established resp2 tls :=
  claim_C1 exProxyEnv exUrl [] exRejectChunks
    (str "HTTP/1.0") [' '] (str "407")
    (str " Proxy Authentication Required\r\n\r\n")
    (by decide) (by decide) (by decide) (by decide) (by decide) (by decide)
    (by decide) (by decide) (by decide)
    (fun c hc => by
      rw [show (str " Proxy Authentication Required\r\n\r\n").head? = some ' ' from rfl] at hc
      have h := Option.some.inj hc
      subst h
      decide)
    (by decide) (by decide)

/-- C10: the tunnel read loop terminates (some fuel suffices) exactly for
those streams of reads in which some finite prefix of the concatenated
reads contains `\r\n\r\n`; and in particular, when every read from some
point on returns the empty string (peer closed) and the bytes delivered
before that point lack the terminator, the loop never terminates at any
fuel. -/
theorem claim_C10 (stream : Nat → Str) :
    ((∃ fuel resp, recvLoopF fuel [] stream 0 = some resp) ↔
      (∃ n, hasTerm (concatFirst stream n) = true)) ∧
    (∀ N, (∀ i, N ≤ i → stream i = []) →
      hasTerm (concatFirst stream N) = false →
      ∀ fuel, recvLoopF fuel [] stream 0 = none) := by
  have hfwd : ∀ fuel resp, recvLoopF fuel [] stream 0 = some resp →
      ∃ n, hasTerm (concatFirst stream n) = true := by
    intro fuel resp hsome
    rw [recvLoopF_eq_recvLoop] at hsome
    rcases Option.map_eq_some'.mp hsome with ⟨⟨r, rest⟩, hrl, hfst⟩
    obtain ⟨htr, k, hk, hr, -⟩ := recvLoop_sound _ _ _ _ hrl
    refine ⟨min k fuel, ?_⟩
    have htake := readsFrom_take stream 0 fuel k
    rw [hr, List.nil_append, htake] at htr
    simpa [concatFirst] using htr
  have hbwd : ∀ n, hasTerm (concatFirst stream n) = true →
      ∃ fuel resp, recvLoopF fuel [] stream 0 = some resp := by
    intro n hn
    have h0 : hasTerm ([] ++ (readsFrom stream 0 n).flatten) = true := by
      simpa [concatFirst] using hn
    obtain ⟨r, rest, hrl, -⟩ := recvLoop_total [] (readsFrom stream 0 n) h0
    refine ⟨n, r, ?_⟩
    rw [recvLoopF_eq_recvLoop, hrl]
    rfl
  refine ⟨⟨?_, ?_⟩, ?_⟩
  · rintro ⟨fuel, resp, h⟩
    exact hfwd fuel resp h
  · rintro ⟨n, hn⟩
    exact hbwd n hn
  · intro N hN hterm fuel
    have hall : ∀ n, hasTerm (concatFirst stream n) = false := by
      intro n
      by_cases hle : n ≤ N
      · cases hx : hasTerm (concatFirst stream n) with
        | false => rfl
        | true =>
          exfalso
          have hsplitN : readsFrom stream 0 N =
              readsFrom stream 0 n ++ readsFrom stream (0 + n) (N - n) := by
            have h := readsFrom_add stream 0 n (N - n)
            rwa [Nat.add_sub_cancel' hle] at h
          have hcontra : hasTerm (concatFirst stream N) = true := by
            rw [concatFirst, hsplitN, List.flatten_append]
            exact containsSeq_append_of _ _ _ (by simpa [concatFirst] using hx)
          rw [hcontra] at hterm
          cases hterm
      · have hNle : N ≤ n := Nat.le_of_not_le hle
        have hsplit : readsFrom stream 0 n =
            readsFrom stream 0 N ++ readsFrom stream (0 + N) (n - N) := by
          have h := readsFrom_add stream 0 N (n - N)
          rwa [Nat.add_sub_cancel' hNle] at h
        have hzero : (readsFrom stream (0 + N) (n - N)).flatten = [] :=
          readsFrom_flatten_nil stream N hN (n - N) (0 + N) (by omega)
        rw [concatFirst, hsplit, List.flatten_append, hzero, List.append_nil]
        exact hterm
    cases hv : recvLoopF fuel [] stream 0 with
    | none => rfl
    | some resp =>
      obtain ⟨n, hn⟩ := hfwd fuel resp hv
      rw [hall n] at hn
      cases hn

/-- Witness for C10: a stream whose every read returns the empty string
never terminates the loop — here shown for fuel 5. -/
theorem claim_C10_witness : recvLoopF 5 [] emptyStream 0 = none :=
  (claim_C10 emptyStream).2 0 (fun i _ => rfl) (by decide) 5

end AtomHttp
